import Mathlib

/-!
Verification of the `deb-strip-copyright` core against its specification.

Strings are modelled as `List Char` (Rust `str` at Unicode-scalar
granularity); byte offsets, where they matter (error positions), are
recovered through `Char.utf8Size`.  Fallible Rust code returning
`eyre::Result` is embedded as `Except String`/`Except ParseError`.
-/

namespace DebStrip

/-! ## Pattern engine (src/glob.rs) -/

/-- Embeds `GlobSegment` from src/glob.rs: a literal substring, a `*`, or a `?`. -/
inductive GlobSegment where
  | Literal (s : List Char)
  | Star
  | Question
deriving DecidableEq, Repr

/-- Embeds `Glob` from src/glob.rs: a compiled glob is a sequence of segments. -/
structure Glob where
  segments : List GlobSegment
deriving DecidableEq, Repr

/-- Embeds `Glob::is_empty`. -/
def Glob.is_empty (g : Glob) : Bool :=
  g.segments.isEmpty

/-- Embeds the segment-walking loop of `Glob::matches` (src/glob.rs lines 38-78).
`none` stands for the two `panic!` branches of the Star arm (a `*` followed by a
wildcard, or by an empty literal); `some b` is a normal boolean return.

Rust-to-model notes, segment by segment:
* `Literal lit`: `s_slice.strip_prefix(lit)` is prefix test plus dropping
  `lit.length` scalars.
* `Question`: the Rust code takes `s_slice.char_indices().next()`, whose index
  component is the *starting* byte of the first character, i.e. `0`; it then
  reslices at that index, so the cursor does not move.  The model mirrors
  this exactly: a nonempty subject continues with the subject unchanged.
* `Star`: with no following segment, succeed; otherwise peek the following
  segment, which must be a nonempty literal (else `panic!` / `none`), and
  advance the cursor to the first occurrence of that literal's first
  character (`str::find(char)`), failing if there is none. -/
def matchesAux : List GlobSegment → List Char → Option Bool
  | [], _ => some true
  | GlobSegment.Literal lit :: rest, s =>
      if lit.isPrefixOf s then matchesAux rest (s.drop lit.length) else some false
  | GlobSegment.Question :: rest, s =>
      match s with
      | [] => some false
      | _ :: _ => matchesAux rest s
  | GlobSegment.Star :: rest, s =>
      match rest with
      | [] => some true
      | GlobSegment.Literal lit :: _ =>
          match lit.head? with
          | none => none
          | some c0 =>
              match s.findIdx? (fun x => x == c0) with
              | none => some false
              | some i => matchesAux rest (s.drop i)
      | _ => none

/-- Embeds `Glob::matches` (src/glob.rs lines 27-83): an empty glob returns
`false` immediately, otherwise the segments are walked by `matchesAux`. -/
def Glob.matches (g : Glob) (s : List Char) : Option Bool :=
  if g.segments.isEmpty then some false else matchesAux g.segments s

/-- Embeds `Vec::push` of a pending literal in `Glob::from_str`: the
accumulated literal run is pushed as a segment only when nonempty
(src/glob.rs lines 114-117 and 144-146). -/
def pushLit (segs : List GlobSegment) (str : List Char) : List GlobSegment :=
  if str.isEmpty then segs else segs ++ [GlobSegment.Literal str]

/-- Embeds the wildcard-adjacency check of `Glob::from_str`
(src/glob.rs lines 121-126): the previous segment may be absent or a literal;
a previous `*` always rejects; a previous `?` rejects only a new `*`. -/
def prevOkB (prev : Option GlobSegment) (c : Char) : Bool :=
  match prev with
  | none => true
  | some (GlobSegment.Literal _) => true
  | some GlobSegment.Star => false
  | some GlobSegment.Question => c != '*'

/-- Embeds the character loop of `Glob::from_str` (src/glob.rs lines 95-148).
State: remaining input, segments so far (`segments`), pending literal run
(`string`), and the escape flag (`escape_on`). -/
def fromStrAux : List Char → List GlobSegment → List Char → Bool → Except String (List GlobSegment)
  | [], segs, str, _ => Except.ok (pushLit segs str)
  | c :: cs, segs, str, true =>
      if c = '\\' ∨ c = '*' ∨ c = '?' then
        fromStrAux cs segs (str ++ [c]) false
      else
        Except.error "character cannot be escaped"
  | c :: cs, segs, str, false =>
      if c = '\\' then
        fromStrAux cs segs str true
      else if c = '*' ∨ c = '?' then
        let segs1 := pushLit segs str
        if prevOkB segs1.getLast? c then
          fromStrAux cs
            (segs1 ++ [if c = '*' then GlobSegment.Star else GlobSegment.Question]) [] false
        else
          Except.error "cannot have a star next to another wildcard"
      else
        fromStrAux cs segs (str ++ [c]) false

/-- Embeds `impl FromStr for Glob` (src/glob.rs lines 92-150). -/
def Glob.fromStr (s : List Char) : Except String Glob :=
  (fromStrAux s [] [] false).map Glob.mk

/-- The matcher's internal assumption on compiled segment lists: every `Star`
is followed by either nothing or a nonempty `Literal` (spec section 3,
enforced by `Glob::from_str`). -/
def starInvB : List GlobSegment → Bool
  | [] => true
  | GlobSegment.Star :: rest =>
      (match rest with
       | [] => true
       | GlobSegment.Literal l :: _ => !l.isEmpty
       | _ => false) && starInvB rest
  | _ :: rest => starInvB rest

/-- The only constraint a segment pushed after the current last segment must
satisfy so that the matcher's Star assumption (`starInvB`) is preserved:
after a `Star`, only a nonempty `Literal` may follow. -/
def okAfter : Option GlobSegment → GlobSegment → Bool
  | some GlobSegment.Star, GlobSegment.Literal l => !l.isEmpty
  | some GlobSegment.Star, _ => false
  | _, _ => true

/-! ## Structured-document parser (src/deb822.rs) -/

/-- Embeds the `WHITESPACE` constant of src/deb822.rs: non-newline horizontal
whitespace. -/
def WS : List Char := [' ', '\t']

/-- Embeds `line.starts_with(WHITESPACE)`: the first character, if any, is a
space or tab. -/
def startsWithWs (l : List Char) : Bool :=
  match l.head? with
  | some c => c ∈ WS
  | none => false

/-- Embeds `trim_start_matches(WHITESPACE)`. -/
def trimStartWs (l : List Char) : List Char :=
  l.dropWhile (fun c => c ∈ WS)

/-- Embeds `trim_matches(WHITESPACE)`: strip spaces and tabs from both ends. -/
def trimWs (l : List Char) : List Char :=
  ((l.dropWhile (fun c => c ∈ WS)).reverse.dropWhile (fun c => c ∈ WS)).reverse

/-- Embeds Rust `str::trim` as used on already-split lines (the lines hold no
newline; the ASCII whitespace classes suffice for the sources involved). -/
def rustTrim (l : List Char) : List Char :=
  ((l.dropWhile Char.isWhitespace).reverse.dropWhile Char.isWhitespace).reverse

/-- Embeds `s.split('\n')`: split into lines, keeping empty pieces, so that a
trailing newline yields a final empty line. -/
def splitNl : List Char → List (List Char)
  | [] => [[]]
  | c :: cs =>
      if c = '\n' then [] :: splitNl cs
      else
        match splitNl cs with
        | [] => [[c]]
        | l :: ls => (c :: l) :: ls

/-- Embeds the comment filter of `Deb822File::from_str`:
`line.trim_start().starts_with('#')`. -/
def isCommentLine (l : List Char) : Bool :=
  (l.dropWhile Char.isWhitespace).head? == some '#'

/-- Embeds `Field` from src/deb822.rs: an optional same-line value plus the
ordered continuation values. -/
structure Field where
  same_line_value : Option (List Char)
  list_values : List (List Char)
deriving DecidableEq, Repr

/-- Embeds `Field::iter_lines` (src/deb822.rs lines 43-49): the same-line
value, if present, followed by the continuation values. -/
def Field.iter_lines (f : Field) : List (List Char) :=
  f.same_line_value.toList ++ f.list_values

/-- Embeds `Stanza` from src/deb822.rs.  The Rust `HashMap<String, Field>` is
modelled as an association list in insertion order; since a duplicate insert is
a parse error, successfully built stanzas have unique keys and lookup order is
irrelevant. -/
structure Stanza where
  fields : List (List Char × Field)
deriving DecidableEq, Repr

/-- Embeds `HashMap::get` on the association-list model. -/
def fieldsGet (m : List (List Char × Field)) (k : List Char) : Option Field :=
  (m.find? (fun kv => kv.1 == k)).map (·.2)

/-- Embeds `Deb822File` from src/deb822.rs. -/
structure Deb822File where
  stanzas : List Stanza
deriving DecidableEq, Repr

/-- Embeds the parse errors raised in src/deb822.rs, structurally: each carries
what the `eyre!` message interpolates (the failing line, and for a duplicate
the field name and the previously stored field).  `fuelOut` is a sentinel for
the fuel-based embedding of the Rust `while` loops; the fuel passed by the
entry points (`number of lines + 1`) always suffices, since every iteration
consumes at least one line. -/
inductive ParseError where
  | noColon (line : List Char)
  | headerStartsWithWs (line : List Char)
  | ranOutOfLines
  | duplicateKey (name : List Char) (prev : Field) (line : List Char)
  | fuelOut
deriving DecidableEq, Repr

/-- Embeds `ParseMeta::parse_field_oneliner` (src/deb822.rs lines 198-212):
split the header at the first `:`; the name is the part before, the remainder,
leading horizontal whitespace stripped, is the optional same-line value. -/
def splitOnceColon : List Char → Option (List Char × List Char)
  | [] => none
  | c :: cs =>
      if c = ':' then some ([], cs)
      else (splitOnceColon cs).map (fun p => (c :: p.1, p.2))

def parse_field_oneliner (l : List Char) : Except ParseError (List Char × Option (List Char)) :=
  match splitOnceColon l with
  | none => Except.error (ParseError.noColon l)
  | some (name, rest) =>
      let rest := trimStartWs rest
      Except.ok (name, if rest.isEmpty then none else some rest)

/-- Embeds `ParseMeta::eat_multiline_field_lines` together with
`parse_multiline_field_line` (src/deb822.rs lines 217-243): greedily consume
lines starting with horizontal whitespace, storing each stripped of leading
and trailing horizontal whitespace; return the remaining lines and the
values. -/
def eat_multiline_field_lines : List (List Char) → List (List Char) × List (List Char)
  | [] => ([], [])
  | l :: ls =>
      if startsWithWs l then
        let (rem, vals) := eat_multiline_field_lines ls
        (rem, trimWs l :: vals)
      else (l :: ls, [])

/-- Embeds `ParseMeta::eat_field` (src/deb822.rs lines 168-192). -/
def eat_field (lines : List (List Char)) :
    Except ParseError (List (List Char) × List Char × Field) :=
  match lines with
  | [] => Except.error ParseError.ranOutOfLines
  | top :: rest =>
      if startsWithWs top then Except.error (ParseError.headerStartsWithWs top)
      else
        match parse_field_oneliner top with
        | Except.error e => Except.error e
        | Except.ok (name, ov) =>
            let (rem, vals) := eat_multiline_field_lines rest
            Except.ok (rem, name, ⟨ov, vals⟩)

/-- Embeds `ParseMeta::eat_stanza` (src/deb822.rs lines 127-165).  The Rust
`while` loop is driven by fuel; the Rust code inserts the new field and then
checks whether `insert` returned a previous value, which is observably the
same as looking the name up first and appending only when absent. -/
def eat_stanza : Nat → List (List Char) → List (List Char × Field) →
    Except ParseError (List (List Char) × Stanza)
  | 0, _, _ => Except.error ParseError.fuelOut
  | _ + 1, [], fields => Except.ok ([], ⟨fields⟩)
  | fuel + 1, l0 :: ls, fields =>
      match eat_field (l0 :: ls) with
      | Except.error e => Except.error e
      | Except.ok (rest, name, fld) =>
          match fieldsGet fields name with
          | some prev => Except.error (ParseError.duplicateKey name prev l0)
          | none =>
              let fields := fields ++ [(name, fld)]
              match rest.head? with
              | some l =>
                  if (rustTrim l).isEmpty then
                    Except.ok (rest.dropWhile (fun l => (rustTrim l).isEmpty), ⟨fields⟩)
                  else eat_stanza fuel rest fields
              | none => eat_stanza fuel rest fields

/-- Embeds the stanza loop of `Deb822File::from_str` (src/deb822.rs
lines 63-71), fuel-driven like `eat_stanza`. -/
def parse_go : Nat → List (List Char) → Except ParseError (List Stanza)
  | 0, _ => Except.error ParseError.fuelOut
  | _ + 1, [] => Except.ok []
  | fuel + 1, l0 :: ls =>
      match eat_stanza ((l0 :: ls).length + 1) (l0 :: ls) [] with
      | Except.error e => Except.error e
      | Except.ok (rest, st) =>
          match parse_go fuel rest with
          | Except.error e => Except.error e
          | Except.ok sts => Except.ok (st :: sts)

/-- Embeds `impl FromStr for Deb822File` (src/deb822.rs lines 51-75): split on
newlines, drop comment lines, then consume stanzas until no line remains. -/
def Deb822File.from_str (s : List Char) : Except ParseError Deb822File :=
  let lines := (splitNl s).filter (fun l => !isCommentLine l)
  (parse_go (lines.length + 1) lines).map Deb822File.mk

/-! ## Error positions (src/deb822.rs, `find_fragment_row_col`) -/

/-- Byte length of a string under UTF-8, as Rust `str::len`. -/
def utf8Len (s : List Char) : Nat :=
  (s.map Char.utf8Size).sum

/-- Embeds `str::char_indices` starting at byte offset `i`: each character
paired with its starting byte offset. -/
def charIndicesFrom : Nat → List Char → List (Nat × Char)
  | _, [] => []
  | i, c :: cs => (i, c) :: charIndicesFrom (i + c.utf8Size) cs

/-- Embeds `ParseMeta::find_fragment_row_col` (src/deb822.rs lines 84-115).
The Rust pointer arithmetic is modelled by handing the fragment's byte offset
and byte length in the source directly; `slice_ok` becomes the bounds check.
Rows and columns follow the Rust arithmetic exactly: the newline byte indices
before the fragment offset are collected, and the last of them (if any) gives
`(newline_count - 1 + 1, offset - last_newline_index)`, else `(0, 0)`. -/
def find_fragment_row_col (source : List Char) (fragOff fragLen : Nat) :
    Option (Nat × Nat) :=
  if fragOff + fragLen ≤ utf8Len source then
    let nls := (charIndicesFrom 0 source).filterMap
      (fun ic => if ic.2 = '\n' then some ic.1 else none)
    let taken := nls.takeWhile (fun i => i < fragOff)
    some (match taken.getLast? with
      | none => (0, 0)
      | some lastNl => (taken.length - 1 + 1, fragOff - lastNl))
  else none

/-- Embeds `ParseMeta::eyre` (src/deb822.rs lines 117-125) as far as the
reported position goes: the row is printed 1-indexed (`row + 1`), the column
as computed. -/
def reported_position (source : List Char) (fragOff fragLen : Nat) :
    Option (Nat × Nat) :=
  (find_fragment_row_col source fragOff fragLen).map (fun rc => (rc.1 + 1, rc.2))

/-! ## Exclusion-policy extractor (src/deb822/copyright.rs) -/

/-- Embeds `CopyrightStanza` from src/deb822/copyright.rs. -/
structure CopyrightStanza where
  upstream_name : Option (List Char)
  files_excluded_normal : List (List Char)
  files_excluded_wildcard : List (List Char)
deriving DecidableEq, Repr

/-- Embeds `HashSet::insert`: add the element when absent (list model of the
hash set; only membership is ever observed). -/
def hsInsert (x : List Char) (s : List (List Char)) : List (List Char) :=
  if x ∈ s then s else s ++ [x]

/-- Embeds the body of the `Files-Excluded` line loop in `CopyrightFile::new`
(src/deb822/copyright.rs lines 41-47): a line containing `*` is pushed to the
wildcard list, any other line is inserted into the normal set — whole, with no
whitespace splitting. -/
def CopyrightStanza.addForm (cs : CopyrightStanza) (form : List Char) : CopyrightStanza :=
  if form.contains '*' then
    { cs with files_excluded_wildcard := cs.files_excluded_wildcard ++ [form] }
  else
    { cs with files_excluded_normal := hsInsert form cs.files_excluded_normal }

/-- The field name `Files-Excluded` looked up by `CopyrightFile::new`. -/
def fexKey : List Char := "Files-Excluded".toList

/-- The field name `Upstream-Name` looked up by `CopyrightFile::new`. -/
def usnKey : List Char := "Upstream-Name".toList

/-- Embeds the per-stanza body of `CopyrightFile::new` (src/deb822/copyright.rs
lines 30-52): stanzas without a `Files-Excluded` field are dropped; otherwise
the optional `Upstream-Name` same-line value is kept and every value line of
`Files-Excluded` is classified by `addForm`. -/
def stanzaFromDeb (ds : Stanza) : Option CopyrightStanza :=
  match fieldsGet ds.fields fexKey with
  | some fex =>
      some (fex.iter_lines.foldl CopyrightStanza.addForm
        ⟨(fieldsGet ds.fields usnKey).bind (·.same_line_value), [], []⟩)
  | none => none

/-- Embeds `CopyrightFile` from src/deb822/copyright.rs. -/
structure CopyrightFile where
  stanzas : List CopyrightStanza
  all_normal_excludes : List (List Char)
deriving DecidableEq, Repr

/-- Embeds `CopyrightFile::recalculate_excludes` (src/deb822/copyright.rs
lines 63-71): the union of every stanza's normal-exclude set. -/
def recalculate_excludes (stanzas : List CopyrightStanza) : List (List Char) :=
  (stanzas.flatMap (·.files_excluded_normal)).foldl (fun s x => hsInsert x s) []

/-- Embeds `CopyrightFile::new` (src/deb822/copyright.rs lines 25-61).  The
Rust signature returns `eyre::Result` but every path returns `Ok`, so the
embedding is total. -/
def CopyrightFile.new (deb : Deb822File) : CopyrightFile :=
  let stanzas := deb.stanzas.filterMap stanzaFromDeb
  { stanzas := stanzas, all_normal_excludes := recalculate_excludes stanzas }

/-- Embeds `CopyrightFile::is_path_excluded` (src/deb822/copyright.rs
lines 73-87).  The path is taken as its (lossy) string form.  Note the code:
membership in the normal-exclude set yields `false`; otherwise the stanza scan
is the stubbed closure `|stanza| false` (the `TODO` comment in the source) and
the function returns its negation. -/
def CopyrightFile.is_path_excluded (cf : CopyrightFile) (p : List Char) : Bool :=
  if cf.all_normal_excludes.contains p then false
  else !(cf.stanzas.any (fun _ => false))

/-- Embeds `impl FromStr for CopyrightFile` (src/deb822/copyright.rs
lines 90-97). -/
def CopyrightFile.from_str (s : List Char) : Except ParseError CopyrightFile :=
  (Deb822File.from_str s).map CopyrightFile.new

theorem starInvB_append (xs : List GlobSegment) (y : GlobSegment)
    (hinv : starInvB xs = true) (hok : okAfter xs.getLast? y = true) :
    starInvB (xs ++ [y]) = true := by
  induction xs with
  | nil =>
      cases y with
      | Literal l => simp [starInvB]
      | Star => simp [starInvB]
      | Question => simp [starInvB]
  | cons x xs ih =>
      cases x with
      | Star =>
          cases xs with
          | nil =>
              cases y with
              | Literal l =>
                  simp only [List.getLast?_singleton, okAfter] at hok
                  simp [starInvB, hok]
              | Star => simp [okAfter] at hok
              | Question => simp [okAfter] at hok
          | cons z zs =>
              simp only [starInvB, Bool.and_eq_true] at hinv
              have hlast : (GlobSegment.Star :: z :: zs).getLast? = (z :: zs).getLast? := by
                simp [List.getLast?_cons_cons]
              rw [hlast] at hok
              have hrec := ih hinv.2 hok
              cases z with
              | Literal l => simp_all [starInvB]
              | Star => simp_all [starInvB]
              | Question => simp_all [starInvB]
      | Literal l =>
          cases xs with
          | nil =>
              cases y <;> simp_all [starInvB, okAfter]
          | cons z zs =>
              simp only [starInvB] at hinv
              have hlast : (GlobSegment.Literal l :: z :: zs).getLast? = (z :: zs).getLast? := by
                simp [List.getLast?_cons_cons]
              rw [hlast] at hok
              simpa [starInvB] using ih hinv hok
      | Question =>
          cases xs with
          | nil =>
              cases y <;> simp_all [starInvB, okAfter]
          | cons z zs =>
              simp only [starInvB] at hinv
              have hlast : (GlobSegment.Question :: z :: zs).getLast? = (z :: zs).getLast? := by
                simp [List.getLast?_cons_cons]
              rw [hlast] at hok
              simpa [starInvB] using ih hinv hok

theorem starInvB_pushLit (segs : List GlobSegment) (str : List Char)
    (hinv : starInvB segs = true) : starInvB (pushLit segs str) = true := by
  unfold pushLit
  by_cases hstr : str.isEmpty
  · simp [hstr, hinv]
  · simp only [hstr, if_false]
    apply starInvB_append segs _ hinv
    cases hlast : segs.getLast? with
    | none => simp [okAfter]
    | some seg =>
        cases seg with
        | Literal l => simp [okAfter]
        | Star => simp [okAfter, hstr]
        | Question => simp [okAfter]

theorem prevOkB_okAfter (prev : Option GlobSegment) (c : Char)
    (h : prevOkB prev c = true) :
    okAfter prev (if c = '*' then GlobSegment.Star else GlobSegment.Question) = true := by
  cases prev with
  | none => cases hc : decide (c = '*') <;> simp_all [okAfter]
  | some seg =>
      cases seg with
      | Literal l => cases hc : decide (c = '*') <;> simp_all [okAfter]
      | Star => simp [prevOkB] at h
      | Question => cases hc : decide (c = '*') <;> simp_all [okAfter]

/-- Whatever `Glob::from_str`'s loop produces from a state whose accumulated
segments satisfy the Star invariant, the result satisfies it too. -/
theorem fromStrAux_ok_inv (cs : List Char) :
    ∀ segs str esc out, starInvB segs = true →
      fromStrAux cs segs str esc = Except.ok out → starInvB out = true := by
  induction cs with
  | nil =>
      intro segs str esc out hinv hok
      simp only [fromStrAux, Except.ok.injEq] at hok
      subst hok
      exact starInvB_pushLit segs str hinv
  | cons c cs ih =>
      intro segs str esc out hinv hok
      cases esc with
      | true =>
          simp only [fromStrAux] at hok
          split at hok
          · exact ih segs (str ++ [c]) false out hinv hok
          · exact absurd hok (by simp)
      | false =>
          simp only [fromStrAux] at hok
          split at hok
          · exact ih segs str true out hinv hok
          · split at hok
            · split at hok
              · rename_i hwild hprev
                refine ih _ [] false out ?_ hok
                exact starInvB_append _ _ (starInvB_pushLit segs str hinv)
                  (prevOkB_okAfter _ c hprev)
              · exact absurd hok (by simp)
            · exact ih segs (str ++ [c]) false out hinv hok

/-- On segment lists satisfying the Star invariant, the matcher walk always
returns a boolean: neither panic branch is reachable. -/
theorem matchesAux_total (segs : List GlobSegment)
    (hinv : starInvB segs = true) : ∀ s, ∃ b, matchesAux segs s = some b := by
  induction segs with
  | nil => intro s; exact ⟨true, rfl⟩
  | cons seg rest ih =>
      intro s
      cases seg with
      | Literal lit =>
          simp only [starInvB] at hinv
          by_cases hpre : lit.isPrefixOf s
          · simpa [matchesAux, hpre] using ih hinv (s.drop lit.length)
          · exact ⟨false, by simp [matchesAux, hpre]⟩
      | Question =>
          simp only [starInvB] at hinv
          cases s with
          | nil => exact ⟨false, rfl⟩
          | cons c s' => simpa [matchesAux] using ih hinv (c :: s')
      | Star =>
          cases rest with
          | nil => exact ⟨true, rfl⟩
          | cons r rs =>
              cases r with
              | Literal l =>
                  simp only [starInvB, Bool.and_eq_true] at hinv
                  obtain ⟨hl, hrest⟩ := hinv
                  cases hd : l.head? with
                  | none => simp [List.head?_eq_none_iff.mp hd] at hl
                  | some c0 =>
                      cases hfind : s.findIdx? (fun x => x == c0) with
                      | none => exact ⟨false, by simp [matchesAux, hd, hfind]⟩
                      | some i =>
                          have := ih hrest (s.drop i)
                          simpa [matchesAux, hd, hfind] using this
              | Star => simp [starInvB] at hinv
              | Question => simp [starInvB] at hinv

theorem isPrefixOf_append_self (l t : List Char) : l.isPrefixOf (l ++ t) = true := by
  induction l with
  | nil => simp [List.isPrefixOf]
  | cons c cs ih => simp [List.isPrefixOf, ih]

theorem anyFalse (l : List CopyrightStanza) : l.any (fun _ => false) = false := by
  induction l <;> simp [*]

theorem mem_hsInsert (x y : List Char) (s : List (List Char)) :
    x ∈ hsInsert y s ↔ x = y ∨ x ∈ s := by
  unfold hsInsert
  by_cases h : y ∈ s
  · simp only [h, if_true]
    exact ⟨Or.inr, fun hh => hh.elim (fun he => he ▸ h) id⟩
  · simp only [h, if_false, List.mem_append, List.mem_singleton]
    exact or_comm

theorem foldl_addForm_wild (forms : List (List Char)) : ∀ acc : CopyrightStanza,
    (forms.foldl CopyrightStanza.addForm acc).files_excluded_wildcard
      = acc.files_excluded_wildcard ++ forms.filter (fun l => l.contains '*') := by
  induction forms with
  | nil => intro acc; simp
  | cons f fs ih =>
      intro acc
      rw [List.foldl_cons, ih, List.filter_cons]
      by_cases hf : '*' ∈ f
      · have haf : CopyrightStanza.addForm acc f =
            { acc with files_excluded_wildcard := acc.files_excluded_wildcard ++ [f] } := by
          simp [CopyrightStanza.addForm, hf]
        rw [haf]
        simp [hf, List.append_assoc]
      · have haf : CopyrightStanza.addForm acc f =
            { acc with files_excluded_normal := hsInsert f acc.files_excluded_normal } := by
          simp [CopyrightStanza.addForm, hf]
        rw [haf]
        simp [hf]

theorem foldl_addForm_normal (forms : List (List Char)) : ∀ (acc : CopyrightStanza) (x : List Char),
    x ∈ (forms.foldl CopyrightStanza.addForm acc).files_excluded_normal ↔
      x ∈ acc.files_excluded_normal ∨ x ∈ forms.filter (fun l => !l.contains '*') := by
  induction forms with
  | nil => intro acc x; simp
  | cons f fs ih =>
      intro acc x
      rw [List.foldl_cons, ih]
      by_cases hf : '*' ∈ f
      · have haf : CopyrightStanza.addForm acc f =
            { acc with files_excluded_wildcard := acc.files_excluded_wildcard ++ [f] } := by
          simp [CopyrightStanza.addForm, hf]
        have hfil : List.filter (fun l => !l.contains '*') (f :: fs)
            = List.filter (fun l => !l.contains '*') fs := by simp [hf]
        rw [haf, hfil]
      · have haf : CopyrightStanza.addForm acc f =
            { acc with files_excluded_normal := hsInsert f acc.files_excluded_normal } := by
          simp [CopyrightStanza.addForm, hf]
        have hfil : List.filter (fun l => !l.contains '*') (f :: fs)
            = f :: List.filter (fun l => !l.contains '*') fs := by simp [hf]
        rw [haf, hfil]
        simp only [mem_hsInsert, List.mem_cons]
        tauto

theorem fieldsGet_eq_none_not_mem (fields : List (List Char × Field)) (name : List Char)
    (h : fieldsGet fields name = none) : name ∉ fields.map Prod.fst := by
  unfold fieldsGet at h
  cases hf : fields.find? (fun kv => kv.1 == name) with
  | some kv => rw [hf] at h; simp at h
  | none =>
      intro hmem
      obtain ⟨kv, hkv, hfst⟩ := List.mem_map.mp hmem
      have hp := List.find?_eq_none.mp hf kv hkv
      simp [hfst] at hp

theorem eat_stanza_nodup (fuel : Nat) :
    ∀ (lines : List (List Char)) (fields : List (List Char × Field))
      (rem : List (List Char)) (st : Stanza),
      eat_stanza fuel lines fields = Except.ok (rem, st) →
      (fields.map Prod.fst).Nodup → (st.fields.map Prod.fst).Nodup := by
  induction fuel with
  | zero => intro lines fields rem st h; simp [eat_stanza] at h
  | succ fuel ih =>
      intro lines fields rem st h hnd
      cases lines with
      | nil =>
          simp only [eat_stanza, Except.ok.injEq, Prod.mk.injEq] at h
          rw [← h.2]
          exact hnd
      | cons l0 ls =>
          simp only [eat_stanza] at h
          split at h
          · exact absurd h (by simp)
          · rename_i x rest name fld he
            split at h
            · exact absurd h (by simp)
            · rename_i hg
              have hnotmem := fieldsGet_eq_none_not_mem fields name hg
              have hnd2 : ((fields ++ [(name, fld)]).map Prod.fst).Nodup := by
                rw [List.map_append, List.nodup_append]
                refine ⟨hnd, by simp, ?_⟩
                intro a ha hb
                simp only [List.map_cons, List.map_nil, List.mem_singleton] at hb
                subst hb
                exact hnotmem ha
              split at h
              · rename_i l hh
                split at h
                · simp only [Except.ok.injEq, Prod.mk.injEq] at h
                  rw [← h.2]
                  exact hnd2
                · exact ih rest _ rem st h hnd2
              · exact ih rest _ rem st h hnd2

theorem parse_go_nodup (fuel : Nat) :
    ∀ (lines : List (List Char)) (sts : List Stanza),
      parse_go fuel lines = Except.ok sts →
      ∀ st ∈ sts, (st.fields.map Prod.fst).Nodup := by
  induction fuel with
  | zero => intro lines sts h; simp [parse_go] at h
  | succ fuel ih =>
      intro lines sts h
      cases lines with
      | nil =>
          simp only [parse_go, Except.ok.injEq] at h
          rw [← h]
          intro st hst
          simp at hst
      | cons l0 ls =>
          simp only [parse_go] at h
          split at h
          · exact absurd h (by simp)
          · rename_i res rest st0 he
            split at h
            · exact absurd h (by simp)
            · rename_i sts' hr
              simp only [Except.ok.injEq] at h
              rw [← h]
              intro st hst
              rcases List.mem_cons.mp hst with rfl | hst'
              · exact eat_stanza_nodup _ _ [] rest st he (by simp)
              · exact ih rest sts' hr st hst'

theorem eat_stanza_dup (fuel : Nat) (lines : List (List Char))
    (fields : List (List Char × Field)) (rest : List (List Char))
    (name : List Char) (fld prev : Field)
    (hf : eat_field lines = Except.ok (rest, name, fld))
    (hg : fieldsGet fields name = some prev) :
    eat_stanza (fuel + 1) lines fields
      = Except.error (ParseError.duplicateKey name prev (lines.headD [])) := by
  cases lines with
  | nil => simp [eat_field] at hf
  | cons l0 ls => simp [eat_stanza, hf, hg]

/-- C3: the claim says a Question segment consumes exactly one Unicode scalar,
so that replacing characters of a string by `?` yields a pattern matching the
original.  The code's Question arm reslices the subject at the starting index
of its first character (index 0) and therefore consumes nothing; consequently
the compiled pattern `?b` fails to match `ab`, refuting the substitution
property (and the repository's own `question_mark` test). -/
theorem c3_question_consumes_nothing :
    (∀ (rest : List GlobSegment) (c : Char) (s : List Char),
        matchesAux (GlobSegment.Question :: rest) (c :: s) = matchesAux rest (c :: s))
    ∧ Glob.fromStr "?b".toList
        = Except.ok ⟨[GlobSegment.Question, GlobSegment.Literal ['b']]⟩
    ∧ Glob.matches ⟨[GlobSegment.Question, GlobSegment.Literal ['b']]⟩ "ab".toList
        = some false :=
  ⟨fun _ _ _ => rfl, by rfl, by decide⟩

/-- C4 counterexample: the claim says a match succeeds only when the subject is
exactly consumed, so the pattern `a` must not match the subject `ab`.  The code
compiles `a` to a single literal segment and `matches` returns `true` on `ab`:
trailing subject content is permitted. -/
theorem c4_counterexample :
    Glob.fromStr "a".toList = Except.ok ⟨[GlobSegment.Literal ['a']]⟩
    ∧ Glob.matches ⟨[GlobSegment.Literal ['a']]⟩ "ab".toList = some true :=
  ⟨by rfl, by decide⟩

/-- C4 amended: a match is anchored at the start only; once every segment has
been consumed the match succeeds regardless of remaining subject characters.
In particular a single-literal pattern matches any subject extending that
literal. -/
theorem c4_amended_trailing_allowed :
    (∀ s : List Char, matchesAux [] s = some true)
    ∧ (∀ lit t : List Char,
        Glob.matches ⟨[GlobSegment.Literal lit]⟩ (lit ++ t) = some true) := by
  refine ⟨fun _ => rfl, fun lit t => ?_⟩
  simp [Glob.matches, matchesAux, isPrefixOf_append_self]

/-- C5: the star-splice claim demands that `front*back` match
`front ++ center ++ back` for every `center`.  The Star arm advances only to
the first occurrence of `back`'s first character and never retries, so with
`front = ""`, `center = "a"`, `back = "ab"` the compiled pattern `*ab` fails
on the subject `aab` (which also refutes the repository's `single_star`
test). -/
theorem c5_star_splice_fails :
    Glob.fromStr "*ab".toList
      = Except.ok ⟨[GlobSegment.Star, GlobSegment.Literal ['a', 'b']]⟩
    ∧ Glob.matches ⟨[GlobSegment.Star, GlobSegment.Literal ['a', 'b']]⟩ "aab".toList
      = some false :=
  ⟨by rfl, by decide⟩

/-- C7: illegal wildcard adjacency is rejected at compile time, never at match
time.  Compiling `a**b` and `a*?b` fails; every successfully compiled glob
satisfies the Star invariant (each Star is followed by nothing or a nonempty
literal); and on such globs `matches` always returns a boolean, so the
matcher's two panic branches are unreachable. -/
theorem c7_adjacency_compile_time :
    ((Glob.fromStr "a**b".toList).isOk = false)
    ∧ ((Glob.fromStr "a*?b".toList).isOk = false)
    ∧ (∀ (s : List Char) (g : Glob),
        Glob.fromStr s = Except.ok g → starInvB g.segments = true)
    ∧ (∀ (s : List Char) (g : Glob) (t : List Char),
        Glob.fromStr s = Except.ok g → ∃ b, Glob.matches g t = some b) := by
  have hinv : ∀ (s : List Char) (g : Glob),
      Glob.fromStr s = Except.ok g → starInvB g.segments = true := by
    intro s g hok
    unfold Glob.fromStr at hok
    cases h : fromStrAux s [] [] false with
    | error e => rw [h] at hok; exact absurd hok (by simp [Except.map])
    | ok out =>
        rw [h] at hok
        simp only [Except.map, Except.ok.injEq] at hok
        subst hok
        exact fromStrAux_ok_inv s [] [] false out rfl h
  refine ⟨by decide, by decide, hinv, ?_⟩
  intro s g t hok
  unfold Glob.matches
  cases hemp : g.segments.isEmpty with
  | true => exact ⟨false, by simp⟩
  | false =>
      simp only [Bool.false_eq_true, if_false]
      exact matchesAux_total g.segments (hinv s g hok) t

/-- Witness for C7: the universally quantified parts applied to the concrete
token `a*b`, whose compilation succeeds. -/
theorem c7_adjacency_compile_time_witness :
    starInvB (Glob.mk [GlobSegment.Literal ['a'], GlobSegment.Star,
      GlobSegment.Literal ['b']]).segments = true
    ∧ ∃ b, Glob.matches ⟨[GlobSegment.Literal ['a'], GlobSegment.Star,
        GlobSegment.Literal ['b']]⟩ "axxb".toList = some b :=
  ⟨c7_adjacency_compile_time.2.2.1 "a*b".toList _ (by rfl),
   c7_adjacency_compile_time.2.2.2 "a*b".toList _ "axxb".toList (by rfl)⟩

/-- C10: a `?` immediately followed by `*`, both unescaped, is always a compile
error — whatever input precedes or follows and whatever state the compiler is
in — even though the matcher's Star assumption would tolerate a Question
followed by a Star (the walk over `[Question, Star]` never reaches a panic
branch). -/
theorem c10_question_star_rejected :
    ((Glob.fromStr "a?*b".toList).isOk = false)
    ∧ (∀ (cs : List Char) (segs : List GlobSegment) (str : List Char),
        ∃ e, fromStrAux ('?' :: '*' :: cs) segs str false = Except.error e)
    ∧ (∀ s : List Char, ∃ b,
        matchesAux [GlobSegment.Question, GlobSegment.Star] s = some b) := by
  refine ⟨by decide, ?_, ?_⟩
  · intro cs segs str
    cases hp : prevOkB (pushLit segs str).getLast? '?' with
    | false =>
        exact ⟨"cannot have a star next to another wildcard",
          by simp [fromStrAux, hp]⟩
    | true =>
        refine ⟨"cannot have a star next to another wildcard", ?_⟩
        simp [fromStrAux, hp, pushLit, prevOkB, List.getLast?_concat]
  · intro s
    cases s with
    | nil => exact ⟨false, rfl⟩
    | cons c s' => exact ⟨true, rfl⟩

/-- C1: the claim says the exclusion query returns true iff some stored
pattern matches the path, and in particular a path matched by no pattern is
not excluded.  The code's query is the negation of membership in the
no-wildcard exclude set — the stanza scan is the stubbed `|stanza| false`
closure — so a policy built from `Files-Excluded: foo` answers `false` on the
path `foo` (which its only pattern matches) and `true` on the path `bar`
(which no pattern matches). -/
theorem c1_exclusion_query_inverted :
    (∀ (cf : CopyrightFile) (p : List Char),
        cf.is_path_excluded p = !(cf.all_normal_excludes.contains p))
    ∧ (CopyrightFile.new
        ⟨[⟨[("Files-Excluded".toList, ⟨some "foo".toList, []⟩)]⟩]⟩).is_path_excluded
        "foo".toList = false
    ∧ (CopyrightFile.new
        ⟨[⟨[("Files-Excluded".toList, ⟨some "foo".toList, []⟩)]⟩]⟩).is_path_excluded
        "bar".toList = true := by
  refine ⟨?_, by decide, by decide⟩
  intro cf p
  unfold CopyrightFile.is_path_excluded
  cases h : cf.all_normal_excludes.contains p
  · simp [anyFalse]
  · simp

/-- C2: the claim says the two-stanza document whose second stanza carries
`Files-Excluded: *.tmp` yields a policy excluding `build/x.tmp` but not
`build/x.txt`.  Evaluating the code end to end, both queries return `true`:
the wildcard patterns are never consulted and the query is inverted, so every
path not literally present in the no-wildcard set is reported excluded. -/
theorem c2_end_to_end_excludes_everything :
    (Deb822File.from_str "Format: 1.0\n\nFiles-Excluded: *.tmp".toList).map
      (fun d =>
        ((CopyrightFile.new d).is_path_excluded "build/x.tmp".toList,
         (CopyrightFile.new d).is_path_excluded "build/x.txt".toList))
    = Except.ok (true, true) := by rfl

/-- C6 counterexample: the claim says the line `bar baz` of a `Files-Excluded`
field is split on ASCII whitespace into the two patterns `bar` and `baz`.
Building the policy from a stanza whose `Files-Excluded` holds exactly that
line stores the single entry `bar baz` — neither `bar` nor `baz` is stored,
and no whitespace splitting happens. -/
theorem c6_counterexample :
    (CopyrightFile.new
        ⟨[⟨[("Files-Excluded".toList, ⟨none, ["bar baz".toList]⟩)]⟩]⟩).all_normal_excludes
      = ["bar baz".toList]
    ∧ "bar".toList ∉ (CopyrightFile.new
        ⟨[⟨[("Files-Excluded".toList, ⟨none, ["bar baz".toList]⟩)]⟩]⟩).all_normal_excludes
    ∧ "baz".toList ∉ (CopyrightFile.new
        ⟨[⟨[("Files-Excluded".toList, ⟨none, ["bar baz".toList]⟩)]⟩]⟩).all_normal_excludes
    ∧ (CopyrightFile.new
        ⟨[⟨[("Files-Excluded".toList, ⟨none, ["bar baz".toList]⟩)]⟩]⟩).stanzas.map
        (·.files_excluded_wildcard) = [[]] := by
  refine ⟨by decide, by decide, by decide, by decide⟩

/-- C6 amended: building the policy collects each stanza's `Files-Excluded`
value lines (same-line value if present, then continuation values, in order)
and stores each whole line as one entry, with no whitespace splitting: the
lines containing `*` form the stanza's wildcard list in collection order, the
remaining lines form its normal-exclude set. -/
theorem c6_amended_whole_lines :
    ∀ (deb : Deb822File) (ds : Stanza) (fex : Field),
      ds ∈ deb.stanzas →
      fieldsGet ds.fields fexKey = some fex →
      ∃ cs ∈ (CopyrightFile.new deb).stanzas,
        cs.files_excluded_wildcard
          = fex.iter_lines.filter (fun l => l.contains '*')
        ∧ ∀ x, x ∈ cs.files_excluded_normal ↔
            x ∈ fex.iter_lines.filter (fun l => !l.contains '*') := by
  intro deb ds fex hmem hget
  refine ⟨fex.iter_lines.foldl CopyrightStanza.addForm
    ⟨(fieldsGet ds.fields usnKey).bind (·.same_line_value), [], []⟩,
    ?_, ?_, ?_⟩
  · show _ ∈ (CopyrightFile.new deb).stanzas
    have : (CopyrightFile.new deb).stanzas = deb.stanzas.filterMap stanzaFromDeb := rfl
    rw [this]
    exact List.mem_filterMap.mpr ⟨ds, hmem, by simp [stanzaFromDeb, hget]⟩
  · rw [foldl_addForm_wild]
    simp
  · intro x
    rw [foldl_addForm_normal]
    simp

/-- Witness for C6's amended claim: the universally quantified statement
applied to the concrete one-stanza document whose `Files-Excluded` field holds
the single continuation line `bar baz`. -/
theorem c6_amended_whole_lines_witness :
    ∃ cs ∈ (CopyrightFile.new
        ⟨[⟨[("Files-Excluded".toList, ⟨none, ["bar baz".toList]⟩)]⟩]⟩).stanzas,
      cs.files_excluded_wildcard
        = (Field.mk none ["bar baz".toList]).iter_lines.filter (fun l => l.contains '*')
      ∧ ∀ x, x ∈ cs.files_excluded_normal ↔
          x ∈ (Field.mk none ["bar baz".toList]).iter_lines.filter
            (fun l => !l.contains '*') :=
  c6_amended_whole_lines
    ⟨[⟨[("Files-Excluded".toList, ⟨none, ["bar baz".toList]⟩)]⟩]⟩
    ⟨[("Files-Excluded".toList, ⟨none, ["bar baz".toList]⟩)]⟩
    ⟨none, ["bar baz".toList]⟩ (by simp) (by rfl)

/-- C8: a stanza never silently overwrites a duplicated field name.  First,
any successfully parsed document has pairwise-distinct field names in every
stanza.  Second, whenever the stanza loop parses a field whose name is already
stored, it stops with a `duplicateKey` error carrying the duplicated name, the
previously stored field value, and the offending line.  Third, the concrete
two-line document `A: 1` / `A: 2` produces exactly that error. -/
theorem c8_duplicate_field_rejected :
    (∀ (s : List Char) (doc : Deb822File),
        Deb822File.from_str s = Except.ok doc →
        ∀ st ∈ doc.stanzas, (st.fields.map Prod.fst).Nodup)
    ∧ (∀ (fuel : Nat) (lines : List (List Char)) (fields : List (List Char × Field))
          (rest : List (List Char)) (name : List Char) (fld prev : Field),
        eat_field lines = Except.ok (rest, name, fld) →
        fieldsGet fields name = some prev →
        eat_stanza (fuel + 1) lines fields
          = Except.error (ParseError.duplicateKey name prev (lines.headD [])))
    ∧ Deb822File.from_str "A: 1\nA: 2".toList
        = Except.error
            (ParseError.duplicateKey "A".toList ⟨some "1".toList, []⟩ "A: 2".toList) := by
  refine ⟨?_, eat_stanza_dup, by rfl⟩
  intro s doc h hst
  simp only [Deb822File.from_str] at h
  cases hp : parse_go (((splitNl s).filter (fun l => !isCommentLine l)).length + 1)
      ((splitNl s).filter (fun l => !isCommentLine l)) with
  | error e => rw [hp] at h; exact absurd h (by simp [Except.map])
  | ok sts =>
      rw [hp] at h
      simp only [Except.map, Except.ok.injEq] at h
      subst h
      exact parse_go_nodup _ _ _ hp hst

/-- Witness for C8: the first conjunct applied to the concrete document
`A: 1`, whose parse succeeds with one single-field stanza, and the second
conjunct applied to a concrete duplicate situation. -/
theorem c8_duplicate_field_rejected_witness :
    ((Stanza.mk [("A".toList, ⟨some "1".toList, []⟩)]).fields.map Prod.fst).Nodup
    ∧ eat_stanza 1 ["A: 2".toList] [("A".toList, ⟨some "1".toList, []⟩)]
        = Except.error (ParseError.duplicateKey "A".toList ⟨some "1".toList, []⟩
            "A: 2".toList) :=
  ⟨c8_duplicate_field_rejected.1 "A: 1".toList
      ⟨[⟨[("A".toList, ⟨some "1".toList, []⟩)]⟩]⟩ (by rfl) _ (by simp),
   c8_duplicate_field_rejected.2.1 0 ["A: 2".toList]
      [("A".toList, ⟨some "1".toList, []⟩)] [] "A".toList
      ⟨some "2".toList, []⟩ ⟨some "1".toList, []⟩ (by rfl) (by rfl)⟩

/-- C9: the claim says every parse error carries a 1-indexed row and a
0-indexed column, so an error on the first character of the second line
reports row 2, column 0.  On the source `K: v` / `bad`, whose second line
fails with a missing `:`, the fragment `bad` starts at byte offset 5, and the
reported position is row 2, column **1**: the code computes the column as the
byte distance from the newline character itself, which is 1-indexed for every
line after the first, although the function's own doc comment says the results
are 0-indexed. -/
theorem c9_column_is_one_indexed :
    Deb822File.from_str "K: v\nbad".toList
      = Except.error (ParseError.noColon "bad".toList)
    ∧ reported_position "K: v\nbad".toList 5 3 = some (2, 1)
    ∧ reported_position "K: v\nbad".toList 5 3 ≠ some (2, 0) := by
  refine ⟨by rfl, by rfl, by decide⟩

end DebStrip
